import Mathlib

/-!
# Fog network generation — verification of the network-generation core

This file embeds the network-generation routine of the FogEdge project
(`src/app/page.tsx`, component `FogNetworkSimulation`) and proves the
specification's testable properties about it.

Modelling conventions:

* JavaScript numbers produced by `Math.random()` and the arithmetic on them
  are rationals here (every double is a rational); square roots land in `ℝ`.
* The stream of `Math.random()` draws is an explicit argument `f : ℕ → ℚ`,
  read in call order.  One node consumes six draws (x, y, resources, and the
  three colour channels), so node `i` reads indices `6*i .. 6*i+5`.
* An `Edge` records the *radicand* `lenSq` of its length; the source's
  `length` field, `Math.sqrt(...)`, is recovered by the real-valued
  `Edge.length` below.  Likewise the source's boolean test
  `calculateProximity(other) <= threshold` is embedded as the decidable
  `proximityWithin` on the radicand; `proximityWithin_iff` proves it
  equivalent to the real-valued comparison, so nothing is lost.
* The source mutates `node.connections` in place inside `forEach`; here the
  node list and edge list are threaded through a fold (`connectStep`), with
  `List.set` playing the in-place update.
-/

/-- Generation parameters (source lines 5–10).  `numNodes` and
`maxConnections` are integer counts; the threshold and capacity are numeric. -/
structure NetworkParams where
  numNodes : ℕ
  proximityThreshold : ℚ
  maxConnections : ℕ
  resourceCapacity : ℚ
deriving DecidableEq

/-- A fog node (source lines 12–21 and 40–54).  The two interface methods
(`calculateProximity`, `generateRandomColor`) are modelled as the standalone
functions below; the CSS colour string `rgb(r, g, b)` is modelled by its three
channel values. -/
structure FogNode where
  id : ℕ
  x : ℚ
  y : ℚ
  resources : ℚ
  connections : List ℕ
  color : ℤ × ℤ × ℤ
deriving DecidableEq

/-- A directed edge (source lines 23–27).  `from` and `to` are Lean keywords, hence
`from_` and `to_`.  `lenSq` is the radicand of the stored `length`; see `Edge.length`. -/
structure Edge where
  from_ : ℕ
  to_ : ℕ
  lenSq : ℚ
deriving DecidableEq

/-- The squared Euclidean distance between two nodes' positions; the radicand
of `calculateProximity` (source lines 63–68). -/
def distSq (a b : FogNode) : ℚ :=
  (a.x - b.x) ^ 2 + (a.y - b.y) ^ 2

/-- `calculateProximity` (source lines 63–68):
`Math.sqrt((this.x-other.x)^2 + (this.y-other.y)^2)`. -/
noncomputable def calculateProximity (a b : FogNode) : ℝ :=
  Real.sqrt (((a.x : ℝ) - (b.x : ℝ)) ^ 2 + ((a.y : ℝ) - (b.y : ℝ)) ^ 2)

/-- The `length` field the source stores in an edge (line 94):
`node.calculateProximity(connectedNode)`, i.e. the square root of `lenSq`. -/
noncomputable def Edge.length (e : Edge) : ℝ :=
  Real.sqrt (e.lenSq : ℝ)

/-- Decidable embedding of the source's filter test
`node.calculateProximity(otherNode) <= networkParams.proximityThreshold`
(line 85).  Since `√` is not computable, the test is phrased on the radicand;
`proximityWithin_iff` below proves it equal to the real-valued comparison. -/
def proximityWithin (a b : FogNode) (t : ℚ) : Bool :=
  decide (0 ≤ t ∧ distSq a b ≤ t ^ 2)

/-- `generateRandomColor` (source lines 56–61): three draws, each
`Math.floor(Math.random() * 200)`, read at indices `k`, `k+1`, `k+2`. -/
def generateRandomColor (f : ℕ → ℚ) (k : ℕ) : ℤ × ℤ × ℤ :=
  (⌊f k * 200⌋, ⌊f (k + 1) * 200⌋, ⌊f (k + 2) * 200⌋)

/-- Node number `i` as built at source lines 73–75 and 48–54:
`new FogNodeImpl(i, Math.random() * 400, Math.random() * 300)` with
`resources = Math.random() * resourceCapacity`, an empty connection list and
a random colour.  The six draws of node `i` sit at indices `6*i .. 6*i+5`,
in evaluation order x, y, resources, r, g, b. -/
def newNode (p : NetworkParams) (f : ℕ → ℚ) (i : ℕ) : FogNode :=
  { id := i
    x := f (6 * i) * 400
    y := f (6 * i + 1) * 300
    resources := f (6 * i + 2) * p.resourceCapacity
    connections := []
    color := generateRandomColor f (6 * i + 3) }

/-- The `newNodes` array (source lines 73–75):
`Array.from({length: numNodes}, (_, i) => new FogNodeImpl(i, ...))`. -/
def mkNodes (p : NetworkParams) (f : ℕ → ℚ) : List FogNode :=
  (List.range p.numNodes).map (newNode p f)

/-- The `potentialConnections` of one node (source lines 81–88): filter the
current node array by `otherNode.id !== node.id`, the proximity test, and
`node.connections.length < maxConnections`, then `slice(0, maxConnections)`. -/
def potentialConnections (p : NetworkParams) (nodes : List FogNode)
    (node : FogNode) : List FogNode :=
  (nodes.filter fun otherNode =>
      (otherNode.id != node.id) &&
      proximityWithin node otherNode p.proximityThreshold &&
      decide (node.connections.length < p.maxConnections)).take
    p.maxConnections

/-- One iteration of the outer `forEach` (source lines 80–98) over the state
`(node array, edge array)`: look up the node at position `i`, compute its
`potentialConnections`, push one edge per candidate and append the candidate
ids to the node's own `connections` (the in-place mutation becomes a
`List.set` at position `i`). -/
def connectStep (p : NetworkParams) (st : List FogNode × List Edge) (i : ℕ) :
    List FogNode × List Edge :=
  match st.1[i]? with
  | none => st
  | some node =>
    let pcs := potentialConnections p st.1 node
    (st.1.set i
        { node with connections := node.connections ++ pcs.map fun c => c.id },
     st.2 ++ pcs.map fun c => { from_ := node.id, to_ := c.id, lenSq := distSq node c })

/-- `initializeNetwork` (source lines 72–102): build the node array, then run
the connection pass over every index in order; return `(newNodes, newEdges)`. -/
def initializeNetwork (p : NetworkParams) (f : ℕ → ℚ) :
    List FogNode × List Edge :=
  let newNodes := mkNodes p f
  (List.range newNodes.length).foldl (connectStep p) (newNodes, [])

/-!
## Closed-form description of the generation pass

The imperative loop only ever mutates the `connections` field of the node it
is currently processing, and the filter never reads any `connections` list
except the current node's own — which is still empty at that point.  The
fold therefore has the following closed form, proved in
`initializeNetwork_eq_spec`: node `i`'s candidates can be computed against
the *initial* node array. -/

/-- The connection ids node `i` ends up with: the ids of its candidates,
computed against the freshly built node array. -/
def specConns (p : NetworkParams) (f : ℕ → ℚ) (i : ℕ) : List ℕ :=
  (potentialConnections p (mkNodes p f) (newNode p f i)).map fun c => c.id

/-- Node `i` as it appears in the output: the fresh node with its final
connection list. -/
def specNode (p : NetworkParams) (f : ℕ → ℚ) (i : ℕ) : FogNode :=
  { newNode p f i with connections := specConns p f i }

/-- Closed form of the output node list. -/
def specNodes (p : NetworkParams) (f : ℕ → ℚ) : List FogNode :=
  (List.range p.numNodes).map (specNode p f)

/-- The edges created while processing node `i`. -/
def specEdgesOf (p : NetworkParams) (f : ℕ → ℚ) (i : ℕ) : List Edge :=
  (potentialConnections p (mkNodes p f) (newNode p f i)).map fun c =>
    { from_ := i, to_ := c.id, lenSq := distSq (newNode p f i) c }

/-- Closed form of the output edge list: blocks in ascending node order. -/
def specEdges (p : NetworkParams) (f : ℕ → ℚ) : List Edge :=
  (List.range p.numNodes).flatMap (specEdgesOf p f)

/-!
## Basic facts about the embedded definitions
-/

theorem mkNodes_length (p : NetworkParams) (f : ℕ → ℚ) :
    (mkNodes p f).length = p.numNodes := by
  simp [mkNodes]

theorem newNode_id (p : NetworkParams) (f : ℕ → ℚ) (i : ℕ) :
    (newNode p f i).id = i := rfl

theorem specNode_id (p : NetworkParams) (f : ℕ → ℚ) (i : ℕ) :
    (specNode p f i).id = i := rfl

theorem distSq_nonneg (a b : FogNode) : 0 ≤ distSq a b :=
  add_nonneg (sq_nonneg _) (sq_nonneg _)

/-- The real-valued `calculateProximity` is the square root of the rational
squared distance. -/
theorem calculateProximity_eq (a b : FogNode) :
    calculateProximity a b = Real.sqrt ((distSq a b : ℚ) : ℝ) := by
  unfold calculateProximity distSq
  congr 1
  push_cast
  ring

/-- The decidable filter test agrees with the source's real-valued comparison
`calculateProximity(other) <= threshold`. -/
theorem proximityWithin_iff (a b : FogNode) (t : ℚ) :
    proximityWithin a b t = true ↔ calculateProximity a b ≤ (t : ℝ) := by
  rw [calculateProximity_eq, proximityWithin, decide_eq_true_eq]
  constructor
  · rintro ⟨ht, hd⟩
    have h0 : (0 : ℝ) ≤ (t : ℝ) := by exact_mod_cast ht
    rw [Real.sqrt_le_left h0]
    have : ((distSq a b : ℚ) : ℝ) ≤ (((t ^ 2 : ℚ)) : ℝ) := by exact_mod_cast hd
    calc ((distSq a b : ℚ) : ℝ) ≤ (((t ^ 2 : ℚ)) : ℝ) := this
      _ = (t : ℝ) ^ 2 := by push_cast; ring
  · intro h
    have h0 : (0 : ℝ) ≤ (t : ℝ) := le_trans (Real.sqrt_nonneg _) h
    have ht : 0 ≤ t := by exact_mod_cast h0
    refine ⟨ht, ?_⟩
    rw [Real.sqrt_le_left h0] at h
    have : ((distSq a b : ℚ) : ℝ) ≤ (t : ℝ) ^ 2 := h
    have h2 : ((distSq a b : ℚ) : ℝ) ≤ (((t ^ 2 : ℚ)) : ℝ) := by
      calc ((distSq a b : ℚ) : ℝ) ≤ (t : ℝ) ^ 2 := this
        _ = (((t ^ 2 : ℚ)) : ℝ) := by push_cast; ring
    exact_mod_cast h2

/-!
## The fold has a closed form

The filter at source line 82–87 reads other nodes only through `id`, `x` and
`y`, and reads a `connections` list only for the node currently being
processed; the loop mutates only that same node.  Hence each node's
candidates can be computed against the freshly built array, which is the
content of `initializeNetwork_eq_spec`.
-/

theorem potentialConnections_map_congr {α : Type} (p : NetworkParams)
    (l : List ℕ) (g1 g2 : ℕ → FogNode)
    (hg : ∀ i ∈ l, (g1 i).id = (g2 i).id ∧ (g1 i).x = (g2 i).x ∧ (g1 i).y = (g2 i).y)
    (node : FogNode) (F : FogNode → α)
    (hF : ∀ a b : FogNode, a.id = b.id → a.x = b.x → a.y = b.y → F a = F b) :
    (potentialConnections p (l.map g1) node).map F
      = (potentialConnections p (l.map g2) node).map F := by
  unfold potentialConnections
  rw [List.map_take, List.map_take, List.filter_map, List.filter_map,
    List.map_map, List.map_map]
  have hfil : ∀ i ∈ l,
      ((fun otherNode =>
          (otherNode.id != node.id) &&
          proximityWithin node otherNode p.proximityThreshold &&
          decide (node.connections.length < p.maxConnections)) ∘ g1) i
        = ((fun otherNode =>
          (otherNode.id != node.id) &&
          proximityWithin node otherNode p.proximityThreshold &&
          decide (node.connections.length < p.maxConnections)) ∘ g2) i := by
    intro i hi
    obtain ⟨h1, h2, h3⟩ := hg i hi
    simp only [Function.comp_apply, proximityWithin, distSq, h1, h2, h3]
  rw [List.filter_congr hfil]
  congr 1
  apply List.map_congr_left
  intro i hi
  have hil : i ∈ l := List.mem_of_mem_filter hi
  obtain ⟨h1, h2, h3⟩ := hg i hil
  exact hF _ _ h1 h2 h3

theorem map_range_set {α : Type} (n j : ℕ) (g : ℕ → α) (v : α) (hj : j < n) :
    (((List.range n).map g).set j v)
      = (List.range n).map fun i => if i = j then v else g i := by
  apply List.ext_getElem?
  intro m
  rw [List.getElem?_set]
  by_cases hmn : m < n
  · rw [List.getElem?_map, List.getElem?_map, List.getElem?_range hmn]
    by_cases hjm : j = m
    · subst hjm
      simp [hj, mkNodes_length, List.length_map, List.length_range]
    · simp [hjm, Ne.symm hjm]
  · have h1 : (((List.range n).map g))[m]? = none := by
      rw [List.getElem?_eq_none_iff]
      simpa using Nat.le_of_not_lt hmn
    have h2 : (((List.range n).map fun i => if i = j then v else g i))[m]? = none := by
      rw [List.getElem?_eq_none_iff]
      simpa using Nat.le_of_not_lt hmn
    rw [h1, h2]
    have : ¬ j = m := by
      intro h
      exact hmn (h ▸ hj)
    simp [this]

theorem loop_inv (p : NetworkParams) (f : ℕ → ℚ) :
    ∀ j, j ≤ p.numNodes →
      (List.range j).foldl (connectStep p) (mkNodes p f, []) =
        ((List.range p.numNodes).map fun i =>
            if i < j then specNode p f i else newNode p f i,
         (List.range j).flatMap (specEdgesOf p f)) := by
  intro j
  induction j with
  | zero =>
    intro _
    simp [mkNodes]
  | succ j ih =>
    intro hj
    have hjn : j < p.numNodes := hj
    rw [List.range_succ, List.foldl_append, ih (Nat.le_of_lt hjn),
      List.foldl_cons, List.foldl_nil]
    have hget : (((List.range p.numNodes).map fun i =>
        if i < j then specNode p f i else newNode p f i))[j]? = some (newNode p f j) := by
      rw [List.getElem?_map, List.getElem?_range hjn]
      simp
    have hid : (potentialConnections p
          ((List.range p.numNodes).map fun i =>
            if i < j then specNode p f i else newNode p f i)
          (newNode p f j)).map (fun c => c.id) = specConns p f j := by
      rw [specConns]
      have hmk : mkNodes p f = (List.range p.numNodes).map (newNode p f) := rfl
      rw [hmk]
      apply potentialConnections_map_congr
      · intro i _
        by_cases h : i < j <;> simp [h, specNode, specConns]
      · intro a b h1 _ _
        exact h1
    have hedge : (potentialConnections p
          ((List.range p.numNodes).map fun i =>
            if i < j then specNode p f i else newNode p f i)
          (newNode p f j)).map
            (fun c => { from_ := (newNode p f j).id, to_ := c.id,
                        lenSq := distSq (newNode p f j) c : Edge })
        = specEdgesOf p f j := by
      rw [specEdgesOf]
      have hmk : mkNodes p f = (List.range p.numNodes).map (newNode p f) := rfl
      rw [hmk]
      apply potentialConnections_map_congr
      · intro i _
        by_cases h : i < j <;> simp [h, specNode, specConns]
      · intro a b h1 h2 h3
        simp only [newNode_id, distSq, h1, h2, h3]
    rw [connectStep, hget]
    simp only
    rw [Prod.mk.injEq]
    refine ⟨?_, ?_⟩
    · rw [hid]
      have hstruct : (⟨(newNode p f j).id, (newNode p f j).x, (newNode p f j).y,
          (newNode p f j).resources, (newNode p f j).connections ++ specConns p f j,
          (newNode p f j).color⟩ : FogNode) = specNode p f j := by
        simp [specNode, newNode]
      rw [hstruct, map_range_set p.numNodes j _ _ hjn]
      apply List.map_congr_left
      intro i _
      by_cases h1 : i = j
      · subst h1
        simp
      · by_cases h2 : i < j
        · rw [if_neg h1, if_pos h2, if_pos (Nat.lt_succ_of_lt h2)]
        · have h3 : ¬ i < j + 1 := by omega
          rw [if_neg h1, if_neg h2, if_neg h3]
    · rw [hedge, List.flatMap_append, List.flatMap_singleton]

/-- The generation pass equals its closed form: every claim below reads the
output through this equation. -/
theorem initializeNetwork_eq_spec (p : NetworkParams) (f : ℕ → ℚ) :
    initializeNetwork p f = (specNodes p f, specEdges p f) := by
  show (List.range (mkNodes p f).length).foldl (connectStep p) (mkNodes p f, [])
      = (specNodes p f, specEdges p f)
  rw [mkNodes_length, loop_inv p f p.numNodes le_rfl]
  rw [Prod.mk.injEq]
  constructor
  · apply List.map_congr_left
    intro i hi
    rw [if_pos (List.mem_range.1 hi)]
  · rfl

/-!
## Membership and shape lemmas for the closed form
-/

theorem mem_specNodes (p : NetworkParams) (f : ℕ → ℚ) (nd : FogNode) :
    nd ∈ specNodes p f ↔ ∃ i < p.numNodes, nd = specNode p f i := by
  simp only [specNodes, List.mem_map, List.mem_range]
  constructor
  · rintro ⟨i, hi, rfl⟩
    exact ⟨i, hi, rfl⟩
  · rintro ⟨i, hi, rfl⟩
    exact ⟨i, hi, rfl⟩

theorem mem_potentialConnections {p : NetworkParams} {nodes : List FogNode}
    {node c : FogNode} (h : c ∈ potentialConnections p nodes node) :
    c ∈ nodes ∧ c.id ≠ node.id ∧
      (0 ≤ p.proximityThreshold ∧ distSq node c ≤ p.proximityThreshold ^ 2) ∧
      node.connections.length < p.maxConnections := by
  have h1 := List.mem_of_mem_take h
  rw [List.mem_filter] at h1
  obtain ⟨hmem, hpred⟩ := h1
  simp only [Bool.and_eq_true, bne_iff_ne, decide_eq_true_eq, proximityWithin] at hpred
  exact ⟨hmem, hpred.1.1, hpred.1.2, hpred.2⟩

theorem potentialConnections_length_le (p : NetworkParams)
    (nodes : List FogNode) (node : FogNode) :
    (potentialConnections p nodes node).length ≤ p.maxConnections := by
  rw [potentialConnections, List.length_take]
  exact min_le_left _ _

theorem specConns_length_le (p : NetworkParams) (f : ℕ → ℚ) (i : ℕ) :
    (specConns p f i).length ≤ p.maxConnections := by
  rw [specConns, List.length_map]
  exact potentialConnections_length_le p (mkNodes p f) (newNode p f i)

theorem mem_mkNodes (p : NetworkParams) (f : ℕ → ℚ) (c : FogNode)
    (h : c ∈ mkNodes p f) : ∃ k < p.numNodes, c = newNode p f k := by
  rw [mkNodes] at h
  simp only [List.mem_map, List.mem_range] at h
  obtain ⟨k, hk, rfl⟩ := h
  exact ⟨k, hk, rfl⟩

theorem specEdgesOf_from (p : NetworkParams) (f : ℕ → ℚ) (i : ℕ) (e : Edge)
    (he : e ∈ specEdgesOf p f i) : e.from_ = i := by
  rw [specEdgesOf, List.mem_map] at he
  obtain ⟨c, _, rfl⟩ := he
  rfl

theorem flatMap_ite_eq {α : Type} (k : ℕ) (g : ℕ → List α) :
    ∀ l : List ℕ, l.Nodup →
      (l.flatMap fun i => if i = k then g i else []) = if k ∈ l then g k else [] := by
  intro l
  induction l with
  | nil => intro _; simp
  | cons a tl ih =>
    intro hnd
    rw [List.flatMap_cons, ih hnd.of_cons]
    by_cases hak : a = k
    · subst hak
      have hk : a ∉ tl := (List.nodup_cons.1 hnd).1
      simp [hk]
    · by_cases hk : k ∈ tl <;> simp [hak, hk, Ne.symm hak]

/-- Filtering the edge list on `from = k` yields exactly node `k`'s block. -/
theorem specEdges_filter_from (p : NetworkParams) (f : ℕ → ℚ) (k : ℕ) :
    ((specEdges p f).filter fun e => e.from_ == k)
      = if k < p.numNodes then specEdgesOf p f k else [] := by
  rw [specEdges, List.filter_flatMap]
  have hblk : ∀ i, ((specEdgesOf p f i).filter fun e => e.from_ == k)
      = if i = k then specEdgesOf p f i else [] := by
    intro i
    by_cases hik : i = k
    · subst hik
      rw [if_pos rfl, List.filter_eq_self]
      intro e he
      simp [specEdgesOf_from p f i e he]
    · rw [if_neg hik, List.filter_eq_nil_iff]
      intro e he
      simp [specEdgesOf_from p f _ e he, hik]
  calc ((List.range p.numNodes).flatMap fun i =>
          (specEdgesOf p f i).filter fun e => e.from_ == k)
      = (List.range p.numNodes).flatMap fun i =>
          if i = k then specEdgesOf p f i else [] := by
        apply List.flatMap_congr
        intro i _
        exact hblk i
    _ = if k ∈ List.range p.numNodes then specEdgesOf p f k else [] :=
        flatMap_ite_eq k (specEdgesOf p f) _ (List.nodup_range p.numNodes)
    _ = if k < p.numNodes then specEdgesOf p f k else [] := by
        by_cases h : k < p.numNodes <;> simp [h]

theorem specNodes_map_id (p : NetworkParams) (f : ℕ → ℚ) :
    ((specNodes p f).map fun nd => nd.id) = List.range p.numNodes := by
  rw [specNodes, List.map_map]
  have h : ((fun nd : FogNode => nd.id) ∘ specNode p f) = fun i => i := rfl
  rw [h]
  simp

theorem mkNodes_map_id (p : NetworkParams) (f : ℕ → ℚ) :
    ((mkNodes p f).map fun nd => nd.id) = List.range p.numNodes := by
  rw [mkNodes, List.map_map]
  have h : ((fun nd : FogNode => nd.id) ∘ newNode p f) = fun i => i := rfl
  rw [h]
  simp

theorem specEdgesOf_map_to (p : NetworkParams) (f : ℕ → ℚ) (k : ℕ) :
    ((specEdgesOf p f k).map fun e => e.to_) = specConns p f k := by
  rw [specEdgesOf, List.map_map, specConns]
  rfl

/-!
## C1 — node count and id assignment
-/

/-- C1: for every valid `params` (`numNodes ≥ 1`) and any draw sequence, the
generation pass returns exactly `numNodes` nodes, and the id sequence of the
output, in creation order, is `0, 1, …, numNodes - 1` — ids are unique,
contiguous and assigned sequentially. -/
theorem c1_node_count_and_ids (p : NetworkParams) (f : ℕ → ℚ)
    (h : 1 ≤ p.numNodes) :
    (initializeNetwork p f).1.length = p.numNodes ∧
      ((initializeNetwork p f).1.map fun nd => nd.id) = List.range p.numNodes := by
  rw [initializeNetwork_eq_spec]
  exact ⟨by simp [specNodes], specNodes_map_id p f⟩

/-- Witness for C1 at `numNodes = 3` with the all-zero draw sequence. -/
theorem c1_node_count_and_ids_witness :
    1 ≤ (⟨3, 50, 5, 100⟩ : NetworkParams).numNodes ∧
      ((initializeNetwork ⟨3, 50, 5, 100⟩ fun _ => 0).1.length = 3 ∧
        ((initializeNetwork ⟨3, 50, 5, 100⟩ fun _ => 0).1.map fun nd => nd.id)
          = List.range 3) :=
  ⟨by decide, c1_node_count_and_ids ⟨3, 50, 5, 100⟩ (fun _ => 0) (by decide)⟩

/-!
## C8 — determinism in the random source
-/

/-- C8: the generation pass is a deterministic function of the parameters and
the draw sequence: two runs with identical parameters whose draw sequences
agree on every index the run can read (six per node) produce identical
`(nodes, edges)` outputs — positions, resources, colours, connection lists
and edge sequences included. -/
theorem c8_deterministic (p : NetworkParams) (f1 f2 : ℕ → ℚ)
    (h : ∀ k, k < 6 * p.numNodes → f1 k = f2 k) :
    initializeNetwork p f1 = initializeNetwork p f2 := by
  have hmk : mkNodes p f1 = mkNodes p f2 := by
    rw [mkNodes, mkNodes]
    apply List.map_congr_left
    intro i hi
    have hin : i < p.numNodes := List.mem_range.1 hi
    have e0 : f1 (6 * i) = f2 (6 * i) := h _ (by omega)
    have e1 : f1 (6 * i + 1) = f2 (6 * i + 1) := h _ (by omega)
    have e2 : f1 (6 * i + 2) = f2 (6 * i + 2) := h _ (by omega)
    have e3 : f1 (6 * i + 3) = f2 (6 * i + 3) := h _ (by omega)
    have e4 : f1 (6 * i + 3 + 1) = f2 (6 * i + 3 + 1) := h _ (by omega)
    have e5 : f1 (6 * i + 3 + 2) = f2 (6 * i + 3 + 2) := h _ (by omega)
    rw [newNode, newNode, generateRandomColor, generateRandomColor,
      e0, e1, e2, e3, e4, e5]
  show (List.range (mkNodes p f1).length).foldl (connectStep p) (mkNodes p f1, [])
      = (List.range (mkNodes p f2).length).foldl (connectStep p) (mkNodes p f2, [])
  rw [hmk]

/-- Witness for C8: two draw sequences that agree on the 30 draws a 5-node
run reads but differ beyond them give identical outputs. -/
theorem c8_deterministic_witness :
    (∀ k, k < 6 * (⟨5, 50, 5, 100⟩ : NetworkParams).numNodes →
        (fun _ : ℕ => (0 : ℚ)) k = (fun k : ℕ => if k < 30 then (0 : ℚ) else 1) k) ∧
      initializeNetwork ⟨5, 50, 5, 100⟩ (fun _ => 0)
        = initializeNetwork ⟨5, 50, 5, 100⟩ (fun k => if k < 30 then 0 else 1) := by
  have h : ∀ k, k < 6 * (⟨5, 50, 5, 100⟩ : NetworkParams).numNodes →
      (fun _ : ℕ => (0 : ℚ)) k = (fun k : ℕ => if k < 30 then (0 : ℚ) else 1) k := by
    intro k hk
    have hk30 : k < 30 := hk
    simp [hk30]
  exact ⟨h, c8_deterministic _ _ _ h⟩

/-- A concrete run used by several witnesses: two coincident nodes at the
origin (all draws 0), threshold 50.  Its first edge is `0 → 1` with zero
length. -/
theorem edge01_mem_exampleRun :
    ({ from_ := 0, to_ := 1, lenSq := 0 } : Edge)
      ∈ (initializeNetwork ⟨2, 50, 5, 100⟩ fun _ => 0).2 := by
  rw [initializeNetwork_eq_spec]
  change _ ∈ specEdges ⟨2, 50, 5, 100⟩ fun _ => 0
  rw [specEdges, List.mem_flatMap]
  refine ⟨0, by decide, ?_⟩
  rw [specEdgesOf, List.mem_map]
  refine ⟨newNode ⟨2, 50, 5, 100⟩ (fun _ => 0) 1, ?_, ?_⟩
  · rw [potentialConnections]
    have hmk : mkNodes ⟨2, 50, 5, 100⟩ (fun _ => 0)
        = [newNode ⟨2, 50, 5, 100⟩ (fun _ => 0) 0,
           newNode ⟨2, 50, 5, 100⟩ (fun _ => 0) 1] := by
      rw [mkNodes]
      rfl
    rw [hmk]
    have hp0 : ((fun otherNode : FogNode =>
        (otherNode.id != (newNode ⟨2, 50, 5, 100⟩ (fun _ => 0) 0).id) &&
        proximityWithin (newNode ⟨2, 50, 5, 100⟩ (fun _ => 0) 0) otherNode
          (50 : ℚ) &&
        decide ((newNode ⟨2, 50, 5, 100⟩ (fun _ => 0) 0).connections.length < 5))
          (newNode ⟨2, 50, 5, 100⟩ (fun _ => 0) 0)) = false := by
      simp [newNode]
    have hp1 : ((fun otherNode : FogNode =>
        (otherNode.id != (newNode ⟨2, 50, 5, 100⟩ (fun _ => 0) 0).id) &&
        proximityWithin (newNode ⟨2, 50, 5, 100⟩ (fun _ => 0) 0) otherNode
          (50 : ℚ) &&
        decide ((newNode ⟨2, 50, 5, 100⟩ (fun _ => 0) 0).connections.length < 5))
          (newNode ⟨2, 50, 5, 100⟩ (fun _ => 0) 1)) = true := by
      simp only [newNode, generateRandomColor, proximityWithin, distSq]
      norm_num
    rw [List.filter_cons, List.filter_cons, List.filter_nil]
    simp only [hp0, hp1]
    simp
  · norm_num [newNode, distSq]

/-!
## C2 — edge well-formedness
-/

/-- C2: every generated edge joins two distinct, existing node ids, and its
stored `length` is exactly the Euclidean distance between the recorded
positions of its endpoint nodes (exact equality — the embedding works in
exact arithmetic, so the spec's floating-point tolerance degenerates to 0). -/
theorem c2_edge_wellformed (p : NetworkParams) (f : ℕ → ℚ) (e : Edge)
    (he : e ∈ (initializeNetwork p f).2) :
    e.from_ ≠ e.to_ ∧
      (∃ a ∈ (initializeNetwork p f).1, a.id = e.from_) ∧
      (∃ b ∈ (initializeNetwork p f).1, b.id = e.to_) ∧
      ∀ a b : FogNode, a ∈ (initializeNetwork p f).1 →
        b ∈ (initializeNetwork p f).1 →
        a.id = e.from_ → b.id = e.to_ → e.length = calculateProximity a b := by
  rw [initializeNetwork_eq_spec] at he ⊢
  change e ∈ specEdges p f at he
  rw [specEdges, List.mem_flatMap] at he
  obtain ⟨i, hi, hei⟩ := he
  rw [List.mem_range] at hi
  rw [specEdgesOf, List.mem_map] at hei
  obtain ⟨c, hc, rfl⟩ := hei
  obtain ⟨hcmem, hcid, _, _⟩ := mem_potentialConnections hc
  obtain ⟨k, hk, rfl⟩ := mem_mkNodes p f c hcmem
  rw [newNode_id] at hcid
  refine ⟨?_, ?_, ?_, ?_⟩
  · show i ≠ (newNode p f k).id
    rw [newNode_id]
    exact fun hik => hcid (hik ▸ rfl)
  · exact ⟨specNode p f i, (mem_specNodes p f _).2 ⟨i, hi, rfl⟩, rfl⟩
  · exact ⟨specNode p f k, (mem_specNodes p f _).2 ⟨k, hk, rfl⟩, rfl⟩
  · intro a b ha hb haid hbid
    change a ∈ specNodes p f at ha
    change b ∈ specNodes p f at hb
    rw [mem_specNodes] at ha hb
    obtain ⟨ia, _, rfl⟩ := ha
    obtain ⟨ib, _, rfl⟩ := hb
    have hia : ia = i := haid
    have hib : ib = (newNode p f k).id := hbid
    rw [newNode_id] at hib
    subst hia
    subst hib
    rw [calculateProximity_eq]
    rfl

/-- Witness for C2: the first edge of a 2-node run with coincident nodes. -/
theorem c2_edge_wellformed_witness :
    ({ from_ := 0, to_ := 1, lenSq := 0 } : Edge)
        ∈ (initializeNetwork ⟨2, 50, 5, 100⟩ fun _ => 0).2 ∧
      (({ from_ := 0, to_ := 1, lenSq := 0 } : Edge).from_
          ≠ ({ from_ := 0, to_ := 1, lenSq := 0 } : Edge).to_ ∧
        (∃ a ∈ (initializeNetwork ⟨2, 50, 5, 100⟩ fun _ => 0).1,
            a.id = ({ from_ := 0, to_ := 1, lenSq := 0 } : Edge).from_) ∧
        (∃ b ∈ (initializeNetwork ⟨2, 50, 5, 100⟩ fun _ => 0).1,
            b.id = ({ from_ := 0, to_ := 1, lenSq := 0 } : Edge).to_) ∧
        ∀ a b : FogNode, a ∈ (initializeNetwork ⟨2, 50, 5, 100⟩ fun _ => 0).1 →
          b ∈ (initializeNetwork ⟨2, 50, 5, 100⟩ fun _ => 0).1 →
          a.id = ({ from_ := 0, to_ := 1, lenSq := 0 } : Edge).from_ →
          b.id = ({ from_ := 0, to_ := 1, lenSq := 0 } : Edge).to_ →
          ({ from_ := 0, to_ := 1, lenSq := 0 } : Edge).length
            = calculateProximity a b) := by
  exact ⟨edge01_mem_exampleRun,
    c2_edge_wellformed ⟨2, 50, 5, 100⟩ (fun _ => 0) _ edge01_mem_exampleRun⟩

/-!
## C3 — edge length bounded by the proximity threshold
-/

/-- C3: every generated edge's length is at most the proximity threshold. -/
theorem c3_edge_length_le_threshold (p : NetworkParams) (f : ℕ → ℚ) (e : Edge)
    (he : e ∈ (initializeNetwork p f).2) :
    e.length ≤ (p.proximityThreshold : ℝ) := by
  rw [initializeNetwork_eq_spec] at he
  change e ∈ specEdges p f at he
  rw [specEdges, List.mem_flatMap] at he
  obtain ⟨i, _, hei⟩ := he
  rw [specEdgesOf, List.mem_map] at hei
  obtain ⟨c, hc, rfl⟩ := hei
  obtain ⟨_, _, ⟨ht, hd⟩, _⟩ := mem_potentialConnections hc
  show Real.sqrt ((distSq (newNode p f i) c : ℚ) : ℝ) ≤ (p.proximityThreshold : ℝ)
  have ht' : (0 : ℝ) ≤ (p.proximityThreshold : ℝ) := by exact_mod_cast ht
  rw [Real.sqrt_le_left ht']
  calc ((distSq (newNode p f i) c : ℚ) : ℝ)
      ≤ ((p.proximityThreshold ^ 2 : ℚ) : ℝ) := by exact_mod_cast hd
    _ = (p.proximityThreshold : ℝ) ^ 2 := by push_cast; ring

/-- Witness for C3 at the two-coincident-node run: the `0 → 1` edge has
length `√0 = 0 ≤ 50`. -/
theorem c3_edge_length_le_threshold_witness :
    ({ from_ := 0, to_ := 1, lenSq := 0 } : Edge)
        ∈ (initializeNetwork ⟨2, 50, 5, 100⟩ fun _ => 0).2 ∧
      ({ from_ := 0, to_ := 1, lenSq := 0 } : Edge).length
        ≤ ((⟨2, 50, 5, 100⟩ : NetworkParams).proximityThreshold : ℝ) :=
  ⟨edge01_mem_exampleRun,
    c3_edge_length_le_threshold ⟨2, 50, 5, 100⟩ (fun _ => 0) _ edge01_mem_exampleRun⟩

/-!
## C4 — per-node outgoing edge count never exceeds the cap
-/

/-- C4: for every output node, the number of output edges carrying that
node's id in the `from` position is at most `maxConnections`. -/
theorem c4_outdegree_le (p : NetworkParams) (f : ℕ → ℚ) (nd : FogNode)
    (h : nd ∈ (initializeNetwork p f).1) :
    ((initializeNetwork p f).2.filter fun e => e.from_ == nd.id).length
      ≤ p.maxConnections := by
  rw [initializeNetwork_eq_spec]
  change ((specEdges p f).filter fun e => e.from_ == nd.id).length ≤ p.maxConnections
  rw [specEdges_filter_from]
  by_cases hlt : nd.id < p.numNodes
  · rw [if_pos hlt, specEdgesOf, List.length_map]
    exact potentialConnections_length_le p _ _
  · rw [if_neg hlt]
    exact Nat.zero_le _

/-- Witness for C4: node 0 of the two-coincident-node run has at most 5
outgoing edges. -/
theorem c4_outdegree_le_witness :
    specNode ⟨2, 50, 5, 100⟩ (fun _ => 0) 0
        ∈ (initializeNetwork ⟨2, 50, 5, 100⟩ fun _ => 0).1 ∧
      ((initializeNetwork ⟨2, 50, 5, 100⟩ fun _ => 0).2.filter
          fun e => e.from_ == (specNode ⟨2, 50, 5, 100⟩ (fun _ => 0) 0).id).length
        ≤ (⟨2, 50, 5, 100⟩ : NetworkParams).maxConnections := by
  have hmem : specNode ⟨2, 50, 5, 100⟩ (fun _ => 0) 0
      ∈ (initializeNetwork ⟨2, 50, 5, 100⟩ fun _ => 0).1 := by
    rw [initializeNetwork_eq_spec]
    exact (mem_specNodes _ _ _).2 ⟨0, by decide, rfl⟩
  exact ⟨hmem, c4_outdegree_le ⟨2, 50, 5, 100⟩ (fun _ => 0) _ hmem⟩

/-!
## C9 — the assignment pass only writes the processing node's own list
-/

/-- C9: one assignment step writes only the processed position of the node
array (a candidate's own `connections` list is never touched), and
consequently every output node's `connections` list equals, in order, the
`to` ids of the output edges whose `from` is that node's id. -/
theorem c9_frame_and_connections (p : NetworkParams) (f : ℕ → ℚ) :
    (∀ (st : List FogNode × List Edge) (i j : ℕ), j ≠ i →
        ((connectStep p st i).1)[j]? = st.1[j]?) ∧
      ∀ nd ∈ (initializeNetwork p f).1,
        nd.connections
          = (((initializeNetwork p f).2.filter fun e => e.from_ == nd.id).map
              fun e => e.to_) := by
  constructor
  · intro st i j hji
    rw [connectStep]
    cases hs : st.1[i]? with
    | none => rfl
    | some nd =>
      simp only
      rw [List.getElem?_set, if_neg fun hh => hji hh.symm]
  · intro nd hnd
    rw [initializeNetwork_eq_spec] at hnd ⊢
    change nd ∈ specNodes p f at hnd
    rw [mem_specNodes] at hnd
    obtain ⟨k, hk, rfl⟩ := hnd
    change specConns p f k
        = (((specEdges p f).filter
            fun e => e.from_ == (specNode p f k).id).map fun e => e.to_)
    have hid : (specNode p f k).id = k := rfl
    rw [hid, specEdges_filter_from, if_pos hk, specEdgesOf_map_to]

/-- Witness for C9: position 1 is untouched when step 0 of the
two-coincident-node run executes, and node 0's connection list is the `to`
sequence of its outgoing edges. -/
theorem c9_frame_and_connections_witness :
    ((connectStep ⟨2, 50, 5, 100⟩
        (mkNodes ⟨2, 50, 5, 100⟩ (fun _ => 0), []) 0).1)[1]?
        = (mkNodes ⟨2, 50, 5, 100⟩ (fun _ => 0))[1]? ∧
      (specNode ⟨2, 50, 5, 100⟩ (fun _ => 0) 0
          ∈ (initializeNetwork ⟨2, 50, 5, 100⟩ fun _ => 0).1 ∧
        (specNode ⟨2, 50, 5, 100⟩ (fun _ => 0) 0).connections
          = (((initializeNetwork ⟨2, 50, 5, 100⟩ fun _ => 0).2.filter
              fun e => e.from_ == (specNode ⟨2, 50, 5, 100⟩ (fun _ => 0) 0).id).map
                fun e => e.to_)) := by
  have hmem : specNode ⟨2, 50, 5, 100⟩ (fun _ => 0) 0
      ∈ (initializeNetwork ⟨2, 50, 5, 100⟩ fun _ => 0).1 := by
    rw [initializeNetwork_eq_spec]
    exact (mem_specNodes _ _ _).2 ⟨0, by decide, rfl⟩
  refine ⟨(c9_frame_and_connections ⟨2, 50, 5, 100⟩ (fun _ => 0)).1 _ 0 1
      (by decide), hmem,
    (c9_frame_and_connections ⟨2, 50, 5, 100⟩ (fun _ => 0)).2 _ hmem⟩

/-!
## C6 — candidate and edge ordering
-/

/-- Each node's final connection list is strictly increasing in id: candidates
are taken in creation (ascending id) order, never reordered by distance. -/
theorem specConns_sorted (p : NetworkParams) (f : ℕ → ℚ) (i : ℕ) :
    (specConns p f i).Pairwise (· < ·) := by
  have hsub : (potentialConnections p (mkNodes p f) (newNode p f i)).Sublist
      (mkNodes p f) :=
    (List.take_sublist _ _).trans (List.filter_sublist _)
  have hmap : (specConns p f i).Sublist ((mkNodes p f).map fun c => c.id) :=
    hsub.map _
  rw [mkNodes_map_id] at hmap
  exact (List.pairwise_lt_range p.numNodes).sublist hmap

theorem pairwise_flatMap_replicate_le (c : ℕ → ℕ) :
    ∀ l : List ℕ, l.Pairwise (· < ·) →
      (l.flatMap fun i => List.replicate (c i) i).Pairwise (· ≤ ·) := by
  intro l
  induction l with
  | nil => intro _; simp
  | cons a tl ih =>
    intro hl
    rw [List.flatMap_cons, List.pairwise_append]
    refine ⟨List.pairwise_replicate.2 (Or.inr le_rfl), ih hl.of_cons, ?_⟩
    intro x hx y hy
    have hxa : x = a := List.eq_of_mem_replicate hx
    rw [List.mem_flatMap] at hy
    obtain ⟨b, hb, hyb⟩ := hy
    have hyb2 : y = b := List.eq_of_mem_replicate hyb
    subst hxa
    subst hyb2
    exact le_of_lt (List.rel_of_pairwise_cons hl hb)

/-- The `from` ids of the edge list are weakly increasing: the edge sequence
is emitted by an outer loop over node ids in ascending order. -/
theorem specEdges_from_sorted (p : NetworkParams) (f : ℕ → ℚ) :
    (((specEdges p f).map fun e => e.from_).Pairwise (· ≤ ·)) := by
  rw [specEdges, List.map_flatMap]
  have hrep : ∀ i : ℕ, ((specEdgesOf p f i).map fun e => e.from_)
      = List.replicate
          (potentialConnections p (mkNodes p f) (newNode p f i)).length i := by
    intro i
    rw [specEdgesOf, List.map_map]
    have hcomp : ((fun e : Edge => e.from_) ∘ fun c : FogNode =>
        ({ from_ := i, to_ := c.id, lenSq := distSq (newNode p f i) c } : Edge))
        = fun _ : FogNode => i := rfl
    rw [hcomp]
    exact List.map_const _ i
  have hcong : ((List.range p.numNodes).flatMap
        fun i => (specEdgesOf p f i).map fun e => e.from_)
      = (List.range p.numNodes).flatMap fun i =>
          List.replicate
            (potentialConnections p (mkNodes p f) (newNode p f i)).length i := by
    apply List.flatMap_congr
    intro i _
    exact hrep i
  rw [hcong]
  exact pairwise_flatMap_replicate_le _ _ (List.pairwise_lt_range p.numNodes)

/-- C6: ordering of the output.  Every node's connection list is strictly
ascending in id (candidates are taken in creation order — distance only gates
eligibility, it never ranks); the edge sequence is grouped by an outer loop
over node ids `0, 1, 2, …` (its `from` projection is weakly increasing); and
within one node the emitted `to` ids follow the same ascending candidate
order. -/
theorem c6_order (p : NetworkParams) (f : ℕ → ℚ) :
    (∀ nd ∈ (initializeNetwork p f).1, nd.connections.Pairwise (· < ·)) ∧
      (((initializeNetwork p f).2.map fun e => e.from_).Pairwise (· ≤ ·)) ∧
      ∀ k : ℕ,
        ((((initializeNetwork p f).2.filter fun e => e.from_ == k).map
            fun e => e.to_).Pairwise (· < ·)) := by
  rw [initializeNetwork_eq_spec]
  refine ⟨?_, ?_, ?_⟩
  · intro nd hnd
    change nd ∈ specNodes p f at hnd
    rw [mem_specNodes] at hnd
    obtain ⟨k, _, rfl⟩ := hnd
    exact specConns_sorted p f k
  · exact specEdges_from_sorted p f
  · intro k
    change ((((specEdges p f).filter fun e => e.from_ == k).map
        fun e => e.to_).Pairwise (· < ·))
    rw [specEdges_filter_from]
    by_cases hk : k < p.numNodes
    · rw [if_pos hk, specEdgesOf_map_to]
      exact specConns_sorted p f k
    · rw [if_neg hk]
      simp

/-- Witness for C6 at a concrete run. -/
theorem c6_order_witness :
    (∀ nd ∈ (initializeNetwork ⟨2, 50, 5, 100⟩ fun _ => 0).1,
        nd.connections.Pairwise (· < ·)) ∧
      (((initializeNetwork ⟨2, 50, 5, 100⟩ fun _ => 0).2.map
          fun e => e.from_).Pairwise (· ≤ ·)) ∧
      ∀ k : ℕ,
        ((((initializeNetwork ⟨2, 50, 5, 100⟩ fun _ => 0).2.filter
            fun e => e.from_ == k).map fun e => e.to_).Pairwise (· < ·)) :=
  c6_order ⟨2, 50, 5, 100⟩ fun _ => 0

/-!
## C10 — positions stay inside the 400 × 300 canvas
-/

/-- With draws in `[0, 1)` — the contract of `Math.random()` — node `i`'s
coordinates satisfy `0 ≤ x < 400` and `0 ≤ y < 300`. -/
theorem newNode_coord_bounds (p : NetworkParams) (f : ℕ → ℚ)
    (hf : ∀ k, 0 ≤ f k ∧ f k < 1) (i : ℕ) :
    0 ≤ (newNode p f i).x ∧ (newNode p f i).x < 400 ∧
      0 ≤ (newNode p f i).y ∧ (newNode p f i).y < 300 := by
  obtain ⟨hx0, hx1⟩ := hf (6 * i)
  obtain ⟨hy0, hy1⟩ := hf (6 * i + 1)
  show 0 ≤ f (6 * i) * 400 ∧ f (6 * i) * 400 < 400 ∧
      0 ≤ f (6 * i + 1) * 300 ∧ f (6 * i + 1) * 300 < 300
  refine ⟨mul_nonneg hx0 (by norm_num), ?_, mul_nonneg hy0 (by norm_num), ?_⟩
  · nlinarith
  · nlinarith

/-- Any two points of the canvas are at squared distance at most
`400² + 300² = 250000`. -/
theorem distSq_le_of_bounds {a b : FogNode}
    (ha : 0 ≤ a.x ∧ a.x < 400 ∧ 0 ≤ a.y ∧ a.y < 300)
    (hb : 0 ≤ b.x ∧ b.x < 400 ∧ 0 ≤ b.y ∧ b.y < 300) :
    distSq a b ≤ 250000 := by
  obtain ⟨hax0, hax1, hay0, hay1⟩ := ha
  obtain ⟨hbx0, hbx1, hby0, hby1⟩ := hb
  rw [distSq]
  nlinarith [mul_nonneg hax0 hbx0, mul_nonneg hay0 hby0,
    mul_nonneg (by linarith : (0:ℚ) ≤ 400 - a.x) (by linarith : (0:ℚ) ≤ 400 - b.x),
    mul_nonneg (by linarith : (0:ℚ) ≤ 300 - a.y) (by linarith : (0:ℚ) ≤ 300 - b.y)]

/-- C10: with draws in `[0, 1)`, every output node's position lies inside the
fixed visualization bounds (`0 ≤ x < 400`, `0 ≤ y < 300`), and consequently
no two output nodes are ever more than `√250000 = 500` apart. -/
theorem c10_bounds (p : NetworkParams) (f : ℕ → ℚ)
    (hf : ∀ k, 0 ≤ f k ∧ f k < 1) :
    (∀ nd ∈ (initializeNetwork p f).1,
        0 ≤ nd.x ∧ nd.x < 400 ∧ 0 ≤ nd.y ∧ nd.y < 300) ∧
      ∀ a ∈ (initializeNetwork p f).1, ∀ b ∈ (initializeNetwork p f).1,
        calculateProximity a b ≤ 500 := by
  have hall : ∀ nd ∈ (initializeNetwork p f).1,
      0 ≤ nd.x ∧ nd.x < 400 ∧ 0 ≤ nd.y ∧ nd.y < 300 := by
    intro nd hnd
    rw [initializeNetwork_eq_spec] at hnd
    change nd ∈ specNodes p f at hnd
    rw [mem_specNodes] at hnd
    obtain ⟨i, _, rfl⟩ := hnd
    exact newNode_coord_bounds p f hf i
  refine ⟨hall, ?_⟩
  intro a ha b hb
  have hd : distSq a b ≤ 250000 := distSq_le_of_bounds (hall a ha) (hall b hb)
  rw [calculateProximity_eq, Real.sqrt_le_left (by norm_num : (0:ℝ) ≤ 500)]
  calc ((distSq a b : ℚ) : ℝ) ≤ ((250000 : ℚ) : ℝ) := by exact_mod_cast hd
    _ = (500 : ℝ) ^ 2 := by norm_num

/-- Witness for C10 with the all-zero draw sequence. -/
theorem c10_bounds_witness :
    (∀ k : ℕ, 0 ≤ (fun _ : ℕ => (0 : ℚ)) k ∧ (fun _ : ℕ => (0 : ℚ)) k < 1) ∧
      ((∀ nd ∈ (initializeNetwork ⟨4, 50, 5, 100⟩ fun _ => 0).1,
          0 ≤ nd.x ∧ nd.x < 400 ∧ 0 ≤ nd.y ∧ nd.y < 300) ∧
        ∀ a ∈ (initializeNetwork ⟨4, 50, 5, 100⟩ fun _ => 0).1,
          ∀ b ∈ (initializeNetwork ⟨4, 50, 5, 100⟩ fun _ => 0).1,
            calculateProximity a b ≤ 500) := by
  have hf : ∀ k : ℕ, 0 ≤ (fun _ : ℕ => (0 : ℚ)) k ∧ (fun _ : ℕ => (0 : ℚ)) k < 1 :=
    fun k => ⟨le_refl 0, by norm_num⟩
  exact ⟨hf, c10_bounds ⟨4, 50, 5, 100⟩ (fun _ => 0) hf⟩

/-!
## C7 — three nodes, threshold 1000: the directed graph is complete
-/

/-- When the threshold is at least 500 (the canvas diameter) and the cap is
positive, the proximity filter keeps every other node, so a node's candidate
list is the first `maxConnections` other nodes in creation order. -/
theorem pcs_complete (p : NetworkParams) (f : ℕ → ℚ)
    (hf : ∀ k, 0 ≤ f k ∧ f k < 1) (ht : 500 ≤ p.proximityThreshold)
    (hcap : 1 ≤ p.maxConnections) (k : ℕ) :
    potentialConnections p (mkNodes p f) (newNode p f k)
      = ((((List.range p.numNodes).filter fun j => j != k).map
          (newNode p f)).take p.maxConnections) := by
  rw [potentialConnections, mkNodes, List.filter_map]
  have hfun : ((fun otherNode : FogNode =>
      (otherNode.id != (newNode p f k).id) &&
      proximityWithin (newNode p f k) otherNode p.proximityThreshold &&
      decide ((newNode p f k).connections.length < p.maxConnections))
        ∘ newNode p f)
      = fun j : ℕ => j != k := by
    funext j
    have h1 : proximityWithin (newNode p f k) (newNode p f j) p.proximityThreshold
        = true := by
      rw [proximityWithin, decide_eq_true_eq]
      have hd := distSq_le_of_bounds (newNode_coord_bounds p f hf k)
        (newNode_coord_bounds p f hf j)
      constructor
      · linarith
      · nlinarith
    have h2 : decide ((newNode p f k).connections.length < p.maxConnections)
        = true := by
      rw [decide_eq_true_eq]
      show List.length [] < p.maxConnections
      simpa using hcap
    show (((newNode p f j).id != (newNode p f k).id) &&
        proximityWithin (newNode p f k) (newNode p f j) p.proximityThreshold &&
        decide ((newNode p f k).connections.length < p.maxConnections)) = (j != k)
    rw [newNode_id, newNode_id, h1, h2, Bool.and_true, Bool.and_true]
  rw [hfun]

/-- C7: in the scenario `numNodes = 3`, `proximityThreshold = 1000`,
`maxConnections = 2`, `resourceCapacity = 100`, for every draw of positions
inside the canvas, the run emits exactly 6 directed edges; every node has
exactly 2 outgoing edges — one to each of the two other nodes — and no node
exceeds the cap of 2. -/
theorem c7_three_nodes (f : ℕ → ℚ) (hf : ∀ k, 0 ≤ f k ∧ f k < 1) :
    (initializeNetwork ⟨3, 1000, 2, 100⟩ f).2.length = 6 ∧
      ∀ nd ∈ (initializeNetwork ⟨3, 1000, 2, 100⟩ f).1,
        (((initializeNetwork ⟨3, 1000, 2, 100⟩ f).2.filter
            fun e => e.from_ == nd.id).map fun e => e.to_)
          = ((List.range 3).filter fun j => j != nd.id) ∧
        ((initializeNetwork ⟨3, 1000, 2, 100⟩ f).2.filter
            fun e => e.from_ == nd.id).length = 2 ∧
        ((initializeNetwork ⟨3, 1000, 2, 100⟩ f).2.filter
            fun e => e.from_ == nd.id).length ≤ 2 := by
  have ht : (500 : ℚ) ≤ (⟨3, 1000, 2, 100⟩ : NetworkParams).proximityThreshold := by
    show (500 : ℚ) ≤ 1000
    norm_num
  have hcap : 1 ≤ (⟨3, 1000, 2, 100⟩ : NetworkParams).maxConnections := by decide
  have hpcs : ∀ k, k < 3 →
      potentialConnections ⟨3, 1000, 2, 100⟩ (mkNodes ⟨3, 1000, 2, 100⟩ f)
          (newNode ⟨3, 1000, 2, 100⟩ f k)
        = ((List.range 3).filter fun j => j != k).map
            (newNode ⟨3, 1000, 2, 100⟩ f) := by
    intro k hk
    rw [pcs_complete ⟨3, 1000, 2, 100⟩ f hf ht hcap k]
    apply List.take_of_length_le
    rw [List.length_map]
    have hflen : ((List.range 3).filter fun j => j != k).length = 2 := by
      interval_cases k <;> decide
    show (((List.range 3).filter fun j => j != k)).length ≤ 2
    rw [hflen]
  have hblock : ∀ k, k < 3 →
      (specEdgesOf ⟨3, 1000, 2, 100⟩ f k).length = 2 := by
    intro k hk
    rw [specEdgesOf, List.length_map, hpcs k hk, List.length_map]
    interval_cases k <;> decide
  constructor
  · rw [initializeNetwork_eq_spec]
    change (specEdges ⟨3, 1000, 2, 100⟩ f).length = 6
    rw [specEdges, List.length_flatMap]
    have hr3 : List.range (⟨3, 1000, 2, 100⟩ : NetworkParams).numNodes
        = [0, 1, 2] := by decide
    rw [hr3]
    simp only [List.map_cons, List.map_nil, Function.comp_apply, List.sum_cons,
      List.sum_nil]
    rw [hblock 0 (by decide), hblock 1 (by decide), hblock 2 (by decide)]
    norm_num
  · intro nd hnd
    rw [initializeNetwork_eq_spec] at hnd ⊢
    change nd ∈ specNodes ⟨3, 1000, 2, 100⟩ f at hnd
    rw [mem_specNodes] at hnd
    obtain ⟨k, hk, rfl⟩ := hnd
    have hid : (specNode ⟨3, 1000, 2, 100⟩ f k).id = k := rfl
    rw [hid]
    have hfil : ((specNodes ⟨3, 1000, 2, 100⟩ f, specEdges ⟨3, 1000, 2, 100⟩ f).2.filter
        fun e => e.from_ == k) = specEdgesOf ⟨3, 1000, 2, 100⟩ f k := by
      change ((specEdges ⟨3, 1000, 2, 100⟩ f).filter fun e => e.from_ == k)
          = specEdgesOf ⟨3, 1000, 2, 100⟩ f k
      rw [specEdges_filter_from, if_pos hk]
    rw [hfil]
    refine ⟨?_, hblock k hk, le_of_eq (hblock k hk)⟩
    rw [specEdgesOf_map_to, specConns, hpcs k hk, List.map_map]
    have hcompid : ((fun c : FogNode => c.id) ∘ newNode ⟨3, 1000, 2, 100⟩ f)
        = fun j : ℕ => j := rfl
    rw [hcompid]
    simp

/-- Witness for C7 with the all-zero draw sequence. -/
theorem c7_three_nodes_witness :
    (∀ k : ℕ, 0 ≤ (fun _ : ℕ => (0 : ℚ)) k ∧ (fun _ : ℕ => (0 : ℚ)) k < 1) ∧
      ((initializeNetwork ⟨3, 1000, 2, 100⟩ fun _ => 0).2.length = 6 ∧
        ∀ nd ∈ (initializeNetwork ⟨3, 1000, 2, 100⟩ fun _ => 0).1,
          (((initializeNetwork ⟨3, 1000, 2, 100⟩ fun _ => 0).2.filter
              fun e => e.from_ == nd.id).map fun e => e.to_)
            = ((List.range 3).filter fun j => j != nd.id) ∧
          ((initializeNetwork ⟨3, 1000, 2, 100⟩ fun _ => 0).2.filter
              fun e => e.from_ == nd.id).length = 2 ∧
          ((initializeNetwork ⟨3, 1000, 2, 100⟩ fun _ => 0).2.filter
              fun e => e.from_ == nd.id).length ≤ 2) := by
  have hf : ∀ k : ℕ, 0 ≤ (fun _ : ℕ => (0 : ℚ)) k ∧ (fun _ : ℕ => (0 : ℚ)) k < 1 :=
    fun k => ⟨le_refl 0, by norm_num⟩
  exact ⟨hf, c7_three_nodes (fun _ => 0) hf⟩

/-!
## C5 — threshold 0

The claim says a threshold of 0 forces zero edges *regardless of where the
randomly drawn positions fall*.  The source's test is `distance <= threshold`
(line 85), not `<`: two nodes drawn at the same position are at distance
`0 ≤ 0` and do connect.  `Math.random()` can return 0, so the all-zero draw
sequence below is a legitimate draw and refutes the claim; the property holds
exactly when all pairwise distances are positive.
-/

/-- With all draws 0 the nodes coincide, and (for a non-negative threshold
and a positive cap) every other node passes the proximity filter. -/
theorem pcs_zero_draws (p : NetworkParams) (hcap : 1 ≤ p.maxConnections)
    (ht : 0 ≤ p.proximityThreshold) (k : ℕ) :
    potentialConnections p (mkNodes p fun _ => 0) (newNode p (fun _ => 0) k)
      = ((((List.range p.numNodes).filter fun j => j != k).map
          (newNode p fun _ => 0)).take p.maxConnections) := by
  rw [potentialConnections, mkNodes, List.filter_map]
  have hfun : ((fun otherNode : FogNode =>
      (otherNode.id != (newNode p (fun _ => 0) k).id) &&
      proximityWithin (newNode p (fun _ => 0) k) otherNode p.proximityThreshold &&
      decide ((newNode p (fun _ => 0) k).connections.length < p.maxConnections))
        ∘ newNode p fun _ => 0)
      = fun j : ℕ => j != k := by
    funext j
    have h1 : proximityWithin (newNode p (fun _ => 0) k)
        (newNode p (fun _ => 0) j) p.proximityThreshold = true := by
      rw [proximityWithin, decide_eq_true_eq]
      have hd : distSq (newNode p (fun _ => 0) k) (newNode p (fun _ => 0) j)
          = 0 := by
        norm_num [distSq, newNode]
      rw [hd]
      exact ⟨ht, sq_nonneg _⟩
    have h2 : decide ((newNode p (fun _ => 0) k).connections.length
        < p.maxConnections) = true := by
      rw [decide_eq_true_eq]
      show List.length [] < p.maxConnections
      simpa using hcap
    show (((newNode p (fun _ => 0) j).id != (newNode p (fun _ => 0) k).id) &&
        proximityWithin (newNode p (fun _ => 0) k) (newNode p (fun _ => 0) j)
          p.proximityThreshold &&
        decide ((newNode p (fun _ => 0) k).connections.length
          < p.maxConnections)) = (j != k)
    rw [newNode_id, newNode_id, h1, h2, Bool.and_true, Bool.and_true]
  rw [hfun]

/-- Counterexample to C5 as stated: `numNodes = 5`, `proximityThreshold = 0`,
`maxConnections = 1`, with the legitimate draw sequence that is constantly 0
(all five nodes at the origin).  The run produces 5 edges, not 0. -/
theorem c5_counterexample :
    (∀ k : ℕ, 0 ≤ (fun _ : ℕ => (0 : ℚ)) k ∧ (fun _ : ℕ => (0 : ℚ)) k < 1) ∧
      (initializeNetwork ⟨5, 0, 1, 100⟩ fun _ => 0).2.length = 5 := by
  refine ⟨fun k => ⟨le_refl 0, by norm_num⟩, ?_⟩
  rw [initializeNetwork_eq_spec]
  change (specEdges ⟨5, 0, 1, 100⟩ fun _ => 0).length = 5
  rw [specEdges, List.length_flatMap]
  have hblock : ∀ k, k < 5 →
      (specEdgesOf ⟨5, 0, 1, 100⟩ (fun _ => 0) k).length = 1 := by
    intro k hk
    rw [specEdgesOf, List.length_map,
      pcs_zero_draws ⟨5, 0, 1, 100⟩ (by decide) (le_refl 0) k,
      List.length_take, List.length_map]
    have hflen : ((List.range 5).filter fun j => j != k).length = 4 := by
      interval_cases k <;> decide
    show (⟨5, 0, 1, 100⟩ : NetworkParams).maxConnections
        ⊓ (((List.range (⟨5, 0, 1, 100⟩ : NetworkParams).numNodes).filter
            fun j => j != k)).length = 1
    have hr : List.range (⟨5, 0, 1, 100⟩ : NetworkParams).numNodes
        = List.range 5 := rfl
    rw [hr, hflen]
    decide
  have hr5 : List.range (⟨5, 0, 1, 100⟩ : NetworkParams).numNodes
      = [0, 1, 2, 3, 4] := by decide
  rw [hr5]
  simp only [List.map_cons, List.map_nil, Function.comp_apply, List.sum_cons,
    List.sum_nil]
  rw [hblock 0 (by decide), hblock 1 (by decide), hblock 2 (by decide),
    hblock 3 (by decide), hblock 4 (by decide)]
  norm_num

/-- C5 amended: with `proximityThreshold = 0` the run produces no edges
*provided* distinct output nodes sit at pairwise distinct positions
(`distSq ≠ 0`); the original "regardless of where the draws fall" is refuted
by `c5_counterexample` (coincident nodes connect at distance `0 ≤ 0`), and
the amendment is exactly the proviso that rules that input out.  The result
holds for every `maxConnections`. -/
theorem c5_amended_threshold_zero (p : NetworkParams) (f : ℕ → ℚ)
    (ht : p.proximityThreshold = 0)
    (hpos : ∀ a ∈ (initializeNetwork p f).1, ∀ b ∈ (initializeNetwork p f).1,
        a.id ≠ b.id → distSq a b ≠ 0) :
    (initializeNetwork p f).2 = [] := by
  rw [initializeNetwork_eq_spec] at hpos ⊢
  change specEdges p f = []
  rw [specEdges, List.flatMap_eq_nil_iff]
  intro i hi
  rw [List.mem_range] at hi
  rw [specEdgesOf, List.map_eq_nil_iff, potentialConnections]
  have hfil : (mkNodes p f).filter (fun otherNode =>
      (otherNode.id != (newNode p f i).id) &&
      proximityWithin (newNode p f i) otherNode p.proximityThreshold &&
      decide ((newNode p f i).connections.length < p.maxConnections)) = [] := by
    rw [List.filter_eq_nil_iff]
    intro c hc hpred
    rw [Bool.and_eq_true, Bool.and_eq_true] at hpred
    obtain ⟨⟨hne, hprox⟩, _⟩ := hpred
    rw [bne_iff_ne] at hne
    rw [proximityWithin, decide_eq_true_eq, ht] at hprox
    obtain ⟨_, hd⟩ := hprox
    have hd0 : distSq (newNode p f i) c = 0 :=
      le_antisymm (by simpa using hd) (distSq_nonneg _ _)
    obtain ⟨k, hk, rfl⟩ := mem_mkNodes p f c hc
    have ha : specNode p f i ∈ (specNodes p f, specEdges p f).1 :=
      (mem_specNodes p f _).2 ⟨i, hi, rfl⟩
    have hb : specNode p f k ∈ (specNodes p f, specEdges p f).1 :=
      (mem_specNodes p f _).2 ⟨k, hk, rfl⟩
    exact hpos _ ha _ hb (Ne.symm hne) hd0
  rw [hfil, List.take_nil]

/-- Witness for the amended C5: two nodes at distinct positions, threshold 0,
no edges. -/
theorem c5_amended_threshold_zero_witness :
    (⟨2, 0, 5, 100⟩ : NetworkParams).proximityThreshold = 0 ∧
      (initializeNetwork ⟨2, 0, 5, 100⟩
          fun k => if k = 6 then (1 : ℚ) / 2 else 0).2 = [] := by
  refine ⟨rfl, ?_⟩
  apply c5_amended_threshold_zero _ _ rfl
  intro a ha b hb hab
  rw [initializeNetwork_eq_spec] at ha hb
  change a ∈ specNodes _ _ at ha
  change b ∈ specNodes _ _ at hb
  rw [mem_specNodes] at ha hb
  obtain ⟨i, hi, rfl⟩ := ha
  obtain ⟨j, hj, rfl⟩ := hb
  have hi2 : i < 2 := hi
  have hj2 : j < 2 := hj
  have hij : i ≠ j := fun hh => hab (by rw [hh])
  interval_cases i <;> interval_cases j <;>
    first
      | exact absurd rfl hij
      | norm_num [distSq, specNode, newNode]
